import Mathlib

/-!
# Verification of the pixelate-template conversion pipeline

A shallow embedding of `scripts/pixelate_template.py`, the script that
converts an RGBA pixel buffer into a palette-index grid, together with
theorems checking the specified properties of its components:

* the fixed 32-entry catalog and `palette_for_size` (lines 17-56),
* the tonal palette ladder `tonal_palette_from_pixels` (lines 59-78),
* the nearest-color matcher `nearest_palette_index` (lines 81-93),
* the row chunker `chunked` (lines 96-106),
* the per-pixel flatten/match loop of `main` (lines 150-177).

Modelling conventions:

* Python integers are `ℤ`; Python floats are modelled as exact rational
  numbers (`ℚ`).  Every float expression in the script is a composition of
  rational operations, so the idealisation is exact arithmetic; IEEE-754
  double rounding can perturb a result by one unit in the last place, which
  only matters where a truncated value sits exactly on an integer boundary.
* Python `int(x)` truncates toward zero; it is modelled by `pyInt`.
* The circular-mean hue / median-saturation statistics of
  `tonal_palette_from_pixels` (lines 63-70) use `math.cos`, `math.sin` and
  `math.atan2`, transcendental real functions with no exact rational
  evaluation.  They are abstracted as an explicit `stats` parameter
  returning the derived `(hue, saturation)` pair; every property proved
  below is independent of the value this pair takes.  The clamp of the
  saturation (line 72) and everything after it is embedded exactly.
-/

/-- Python `int(x)`: truncation of a rational toward zero. -/
def pyInt (q : ℚ) : ℤ := if 0 ≤ q then ⌊q⌋ else ⌈q⌉

/-- One palette entry: a `(name, (r, g, b))` pair, as in the script's
`Palette = List[Tuple[str, Tuple[int, int, int]]]`. -/
structure PaletteEntry where
  name : String
  rgb : ℤ × ℤ × ℤ
  deriving DecidableEq, Repr

/-- An ordered palette, as in the script. -/
abbrev Palette := List PaletteEntry

/-- The hard-coded 32-entry reference catalog `GAME_PALETTE_32`
(lines 17-50). -/
def GAME_PALETTE_32 : Palette := [
  ⟨"red", (230, 57, 70)⟩,
  ⟨"orange", (244, 162, 97)⟩,
  ⟨"yellow", (233, 196, 106)⟩,
  ⟨"green", (76, 175, 80)⟩,
  ⟨"teal", (42, 157, 143)⟩,
  ⟨"brown", (141, 110, 99)⟩,
  ⟨"charcoal", (47, 47, 47)⟩,
  ⟨"lightgray", (176, 190, 197)⟩,
  ⟨"sky", (33, 150, 243)⟩,
  ⟨"indigo", (63, 81, 181)⟩,
  ⟨"violet", (156, 39, 176)⟩,
  ⟨"magenta", (233, 30, 99)⟩,
  ⟨"coral", (255, 112, 67)⟩,
  ⟨"gold", (255, 235, 59)⟩,
  ⟨"seafoam", (0, 150, 136)⟩,
  ⟨"umber", (121, 85, 72)⟩,
  ⟨"slate", (96, 125, 139)⟩,
  ⟨"gray", (158, 158, 158)⟩,
  ⟨"bluegray", (69, 90, 100)⟩,
  ⟨"deeporange", (255, 87, 34)⟩,
  ⟨"lime", (205, 220, 57)⟩,
  ⟨"leaf", (139, 195, 74)⟩,
  ⟨"cyan", (0, 188, 212)⟩,
  ⟨"azure", (3, 169, 244)⟩,
  ⟨"purple", (103, 58, 183)⟩,
  ⟨"hotpink", (255, 64, 129)⟩,
  ⟨"amber", (255, 152, 0)⟩,
  ⟨"white", (250, 250, 250)⟩,
  ⟨"storm", (84, 110, 122)⟩,
  ⟨"petalpink", (255, 167, 192)⟩,
  ⟨"darkgray", (66, 66, 66)⟩,
  ⟨"black", (0, 0, 0)⟩]

/-- `palette_for_size` (lines 53-56): raises `ValueError` unless the size
is 16 or 32, otherwise returns the prefix `GAME_PALETTE_32[:size]`. -/
def palette_for_size (size : ℤ) : Except String Palette :=
  if ¬(size = 16 ∨ size = 32) then Except.error "palette-size must be 16 or 32"
  else Except.ok (GAME_PALETTE_32.take size.toNat)

/-- `colorsys.hsv_to_rgb`, an exact rational computation in Python's
standard library, embedded over `ℚ`. -/
def hsv_to_rgb (h s v : ℚ) : ℚ × ℚ × ℚ :=
  if s = 0 then (v, v, v)
  else
    let i : ℤ := pyInt (h * 6)
    let f : ℚ := h * 6 - (i : ℚ)
    let p : ℚ := v * (1 - s)
    let q : ℚ := v * (1 - s * f)
    let t : ℚ := v * (1 - s * (1 - f))
    let im : ℤ := i % 6
    if im = 0 then (v, t, p)
    else if im = 1 then (q, v, p)
    else if im = 2 then (p, v, t)
    else if im = 3 then (p, q, t)
    else if im = 4 then (t, p, v)
    else (v, p, q)

/-- The brightness ladder of `tonal_palette_from_pixels` (line 73):
`values = [0.22 + (0.72 * (i / max(1, buckets - 1))) for i in range(buckets)]`. -/
def toneValues (buckets : ℕ) : List ℚ :=
  (List.range buckets).map
    (fun (i : ℕ) => 22/100 + (72/100) * ((i : ℚ) / ((max 1 (buckets - 1) : ℕ) : ℚ)))

/-- Lines 72-78 of `tonal_palette_from_pixels`: clamp the saturation to
`[0.25, 0.85]`, build the brightness ladder, and convert each
`(hue, sat, value)` triple back to an RGB entry named `tone{i}`. -/
def tonalLadder (hue sat : ℚ) (buckets : ℕ) : Palette :=
  let satC : ℚ := max (25/100) (min (85/100) sat)
  (toneValues buckets).enum.map
    (fun iv =>
      let rgb := hsv_to_rgb hue satC iv.2
      ⟨"tone" ++ toString iv.1,
        (pyInt (rgb.1 * 255), pyInt (rgb.2.1 * 255), pyInt (rgb.2.2 * 255))⟩)

/-- `tonal_palette_from_pixels` (lines 59-78).  The hue/saturation
statistics of lines 60-71 (HSV conversion, saturation filter, circular-mean
hue via `atan2`, median saturation) are abstracted as the `stats`
parameter, because the circular mean is transcendental; everything from the
clamp at line 72 on is embedded exactly in `tonalLadder`. -/
def tonal_palette_from_pixels (stats : List (ℤ × ℤ × ℤ) → ℚ × ℚ)
    (pixels : List (ℤ × ℤ × ℤ)) (buckets : ℕ) : Palette :=
  tonalLadder (stats pixels).1 (stats pixels).2 buckets

/-- The squared Euclidean distance of lines 86-89:
`dr*dr + dg*dg + db*db`. -/
def dist2 (c : ℤ × ℤ × ℤ) (pc : ℤ × ℤ × ℤ) : ℤ :=
  (c.1 - pc.1) * (c.1 - pc.1) + (c.2.1 - pc.2.1) * (c.2.1 - pc.2.1) +
    (c.2.2 - pc.2.2) * (c.2.2 - pc.2.2)

/-- `dist < best_dist` where `best_dist` starts as `float("inf")`
(modelled by `none`): anything is below infinity. -/
def ltInf (d : ℤ) : Option ℤ → Bool
  | none => true
  | some bd => decide (d < bd)

/-- The scanning loop of `nearest_palette_index` (lines 83-92), carrying
the running index, the best index so far and the best distance so far
(`none` = `float("inf")`). -/
def nearestGo (c : ℤ × ℤ × ℤ) : Palette → ℕ → ℕ → Option ℤ → ℕ
  | [], _, bestIdx, _ => bestIdx
  | e :: rest, idx, bestIdx, bestDist =>
    let d := dist2 c e.rgb
    if ltInf d bestDist then nearestGo c rest (idx + 1) idx (some d)
    else nearestGo c rest (idx + 1) bestIdx bestDist

/-- `nearest_palette_index` (lines 81-93): linear scan for the entry of
minimal squared distance, strict improvement only, starting from
`best_idx = 0`, `best_dist = inf`. -/
def nearest_palette_index (c : ℤ × ℤ × ℤ) (palette : Palette) : ℕ :=
  nearestGo c palette 0 0 none

/-- Spec-side accessor: the squared distance from color `c` to the `j`-th
palette entry (defaulting to `0` out of range; only used at `j` below the
palette length). -/
def distOf (c : ℤ × ℤ × ℤ) (palette : Palette) (j : ℕ) : ℤ :=
  (palette.map (fun e => dist2 c e.rgb)).getD j 0

/-- The accumulation loop of `chunked` (lines 96-106): `row` is the row
being filled, `rows` the completed rows, in order. -/
def chunkedGo (width : ℤ) : List ℤ → List ℤ → List (List ℤ) → List (List ℤ)
  | [], row, rows => if row.isEmpty then rows else rows ++ [row]
  | v :: vs, row, rows =>
    if ((row ++ [v]).length : ℤ) = width then chunkedGo width vs [] (rows ++ [row ++ [v]])
    else chunkedGo width vs (row ++ [v]) rows

/-- `chunked` (lines 96-106): split a flat sequence into consecutive rows
of length `width`, emitting any leftover partial row at the end. -/
def chunked (values : List ℤ) (width : ℤ) : List (List ℤ) :=
  chunkedGo width values [] []

/-- One RGBA pixel as produced by `rgba.getdata()`. -/
structure Pixel where
  r : ℤ
  g : ℤ
  b : ℤ
  a : ℤ
  deriving DecidableEq, Repr

/-- One channel of the alpha-over-white flatten of lines 167-172:
`int((c * alpha) + (255 * (1 - alpha)))` with `alpha = a / 255.0`. -/
def flattenChannel (c a : ℤ) : ℤ :=
  pyInt ((c : ℚ) * ((a : ℚ) / 255) + 255 * (1 - (a : ℚ) / 255))

/-- The `flattened_rgb` triple of lines 168-172. -/
def flattened_rgb (p : Pixel) : ℤ × ℤ × ℤ :=
  (flattenChannel p.r p.a, flattenChannel p.g p.a, flattenChannel p.b p.a)

/-- The per-pixel loop of lines 162-173: alpha below the threshold yields
the sentinel `-1`, otherwise the index of the nearest palette entry to the
flattened color. -/
def mapped (T : ℤ) (palette : Palette) (pixels : List Pixel) : List ℤ :=
  pixels.map
    (fun p =>
      if p.a < T then (-1 : ℤ)
      else (nearest_palette_index (flattened_rgb p) palette : ℤ))

/-- `solid_pixels` (line 153): the raw RGB channels of the pixels whose
alpha is at or above the threshold. -/
def solid_pixels (T : ℤ) (pixels : List Pixel) : List (ℤ × ℤ × ℤ) :=
  (pixels.filter (fun p => decide (T ≤ p.a))).map (fun p => (p.r, p.g, p.b))

/-- The argument `solid_pixels or [(255, 255, 255)]` passed to the tonal
palette builder at line 159: a single white pixel is substituted when no
pixel passes the alpha threshold. -/
def statsInput (T : ℤ) (pixels : List Pixel) : List (ℤ × ℤ × ℤ) :=
  if (solid_pixels T pixels).isEmpty then [(255, 255, 255)]
  else solid_pixels T pixels

/-- Line 176: `sorted({value for value in mapped if value >= 0})`. -/
def usedIndices (m : List ℤ) : List ℤ :=
  ((m.filter (fun v => decide (0 ≤ v))).dedup).insertionSort (· ≤ ·)

/-- The two palette modes of the script. -/
inductive Mode where
  | fixed
  | tonal
  deriving DecidableEq, Repr

/-- The arguments `main` consumes (lines 124-136); `height` is used only
by the external resize step and the emitted snippet text. -/
structure Args where
  mode : Mode
  paletteSize : ℤ
  buckets : ℤ
  alphaThreshold : ℤ
  width : ℤ
  height : ℤ

/-- The core of `main` (lines 150-177), after the external image
load/resize has produced the RGBA pixel list: choose the palette
(lines 155-159), map every pixel (lines 162-173), chunk into rows
(line 174) and collect the used indices (line 176).  `stats` abstracts the
transcendental hue/saturation statistics as in
`tonal_palette_from_pixels`. -/
def convert (stats : List (ℤ × ℤ × ℤ) → ℚ × ℚ) (args : Args)
    (pixels : List Pixel) : Except String (List (List ℤ) × Palette × List ℤ) :=
  match (match args.mode with
    | Mode.fixed => palette_for_size args.paletteSize
    | Mode.tonal =>
        Except.ok (tonal_palette_from_pixels stats
          (statsInput args.alphaThreshold pixels) (max 2 args.buckets).toNat)) with
  | Except.error e => Except.error e
  | Except.ok palette =>
      let m := mapped args.alphaThreshold palette pixels
      Except.ok (chunked m args.width, palette, usedIndices m)

/-! ## Helper lemmas -/

/-- Python `int()` agrees with the floor on nonnegative rationals. -/
theorem pyInt_of_nonneg {q : ℚ} (h : 0 ≤ q) : pyInt q = ⌊q⌋ := if_pos h

/-- The flatten expression of lines 167-172 in closed integer form: for
channel and alpha in byte range it is the floor of
`(c * a + 255 * (255 - a)) / 255`. -/
theorem flattenChannel_eq (c a : ℤ) (hc : 0 ≤ c) (ha0 : 0 ≤ a) (ha : a ≤ 255) :
    flattenChannel c a = (c * a + 255 * (255 - a)) / 255 := by
  have hE : ((c : ℚ) * ((a : ℚ) / 255) + 255 * (1 - (a : ℚ) / 255))
      = ((c * a + 255 * (255 - a) : ℤ) : ℚ) / ((255 : ℕ) : ℚ) := by
    push_cast
    ring
  have hN : (0 : ℤ) ≤ c * a + 255 * (255 - a) := by
    have h1 : (0 : ℤ) ≤ c * a := mul_nonneg hc ha0
    have h2 : (0 : ℤ) ≤ 255 * (255 - a) := by nlinarith
    linarith
  have hq : (0 : ℚ) ≤ ((c * a + 255 * (255 - a) : ℤ) : ℚ) / ((255 : ℕ) : ℚ) := by
    apply div_nonneg
    · exact_mod_cast hN
    · norm_num
  unfold flattenChannel
  rw [hE, pyInt_of_nonneg hq, Rat.floor_intCast_div_natCast]
  norm_num

/-- Concatenating the rows produced by the chunking loop recovers the
completed rows, the pending row and the unprocessed values, in order. -/
theorem chunkedGo_flatten (w : ℤ) (vs : List ℤ) :
    ∀ (row : List ℤ) (rows : List (List ℤ)),
      (chunkedGo w vs row rows).flatten = rows.flatten ++ row ++ vs := by
  induction vs with
  | nil =>
    intro row rows
    by_cases h : row.isEmpty
    · have hr : row = [] := List.isEmpty_iff.mp h
      simp [chunkedGo, h, hr]
    · simp [chunkedGo, h]
  | cons v vs ih =>
    intro row rows
    by_cases h : ((row ++ [v]).length : ℤ) = w
    · simp only [chunkedGo, if_pos h]
      rw [ih]
      simp
    · simp only [chunkedGo, if_neg h]
      rw [ih]
      simp

/-- Row count of the chunking loop: completed rows plus the ceiling of the
remaining element count over the width. -/
theorem chunkedGo_length (wn : ℕ) (hw : 1 ≤ wn) (vs : List ℤ) :
    ∀ (row : List ℤ) (rows : List (List ℤ)), row.length < wn →
      (chunkedGo (wn : ℤ) vs row rows).length
        = rows.length + (row.length + vs.length + wn - 1) / wn := by
  induction vs with
  | nil =>
    intro row rows hrow
    by_cases h : row.isEmpty
    · have hr : row = [] := List.isEmpty_iff.mp h
      have h0 : (wn - 1) / wn = 0 := Nat.div_eq_of_lt (by omega)
      simp [chunkedGo, h, hr, h0]
    · have hnz : row.length ≠ 0 := by
        cases row
        · simp at h
        · simp
      have h1 : (row.length + 0 + wn - 1) / wn = 1 :=
        Nat.div_eq_of_lt_le (by omega) (by omega)
      simp only [chunkedGo, if_neg h, List.length_nil]
      rw [h1]
      simp
  | cons v vs ih =>
    intro row rows hrow
    by_cases h : ((row ++ [v]).length : ℤ) = (wn : ℤ)
    · have hrw : row.length + 1 = wn := by
        have : ((row.length + 1 : ℕ) : ℤ) = (wn : ℤ) := by simpa using h
        exact_mod_cast this
      simp only [chunkedGo, if_pos h]
      rw [ih [] (rows ++ [row ++ [v]]) (by simp only [List.length_nil]; omega)]
      simp only [List.length_append, List.length_cons, List.length_nil, Nat.zero_add]
      have harith : row.length + (vs.length + 1) + wn - 1 = vs.length + wn - 1 + wn := by
        omega
      rw [harith, Nat.add_div_right _ (by omega)]
      omega
    · have hrw : row.length + 1 ≠ wn := by
        intro hcon
        apply h
        simp [hcon]
      simp only [chunkedGo, if_neg h]
      rw [ih (row ++ [v]) rows (by simp; omega)]
      have harith : row.length + 1 + vs.length + wn - 1
          = row.length + (vs.length + 1) + wn - 1 := by omega
      simp only [List.length_append, List.length_cons, List.length_nil]
      rw [harith]

/-- Every completed row except possibly the last has exactly the width. -/
theorem chunkedGo_dropLast (wn : ℕ) (vs : List ℤ) :
    ∀ (row : List ℤ) (rows : List (List ℤ)),
      (∀ r ∈ rows, r.length = wn) →
      ∀ r ∈ (chunkedGo (wn : ℤ) vs row rows).dropLast, r.length = wn := by
  induction vs with
  | nil =>
    intro row rows hrows r hr
    by_cases h : row.isEmpty
    · simp only [chunkedGo, if_pos h] at hr
      exact hrows r (List.dropLast_subset _ hr)
    · simp only [chunkedGo, if_neg h, List.dropLast_concat] at hr
      exact hrows r hr
  | cons v vs ih =>
    intro row rows hrows
    by_cases h : ((row ++ [v]).length : ℤ) = (wn : ℤ)
    · simp only [chunkedGo, if_pos h]
      apply ih
      intro r hr
      rcases List.mem_append.mp hr with h1 | h1
      · exact hrows r h1
      · have hr2 : r = row ++ [v] := by simpa using h1
        subst hr2
        have : ((row ++ [v]).length : ℤ) = (wn : ℤ) := h
        exact_mod_cast this
    · simp only [chunkedGo, if_neg h]
      exact ih _ _ hrows

/-- Every emitted row is nonempty and no longer than the width. -/
theorem chunkedGo_mem (wn : ℕ) (hw : 1 ≤ wn) (vs : List ℤ) :
    ∀ (row : List ℤ) (rows : List (List ℤ)),
      (∀ r ∈ rows, r.length ≤ wn ∧ r ≠ []) → row.length < wn →
      ∀ r ∈ chunkedGo (wn : ℤ) vs row rows, r.length ≤ wn ∧ r ≠ [] := by
  induction vs with
  | nil =>
    intro row rows hrows hrow r hr
    by_cases h : row.isEmpty
    · simp only [chunkedGo, if_pos h] at hr
      exact hrows r hr
    · simp only [chunkedGo, if_neg h] at hr
      rcases List.mem_append.mp hr with h1 | h1
      · exact hrows r h1
      · have hr2 : r = row := by simpa using h1
        subst hr2
        refine ⟨by omega, ?_⟩
        intro hcon
        rw [hcon] at h
        simp at h
  | cons v vs ih =>
    intro row rows hrows hrow
    by_cases h : ((row ++ [v]).length : ℤ) = (wn : ℤ)
    · simp only [chunkedGo, if_pos h]
      apply ih _ _ ?_ (by simp only [List.length_nil]; omega)
      intro r hr
      rcases List.mem_append.mp hr with h1 | h1
      · exact hrows r h1
      · have hr2 : r = row ++ [v] := by simpa using h1
        subst hr2
        have hlen : (row ++ [v]).length = wn := by exact_mod_cast h
        exact ⟨by omega, by simp⟩
    · simp only [chunkedGo, if_neg h]
      have hne : row.length + 1 ≠ wn := by
        intro hcon
        apply h
        simp [hcon]
      apply ih _ _ hrows (by simp; omega)

/-! ## Claim theorems -/

/-- Claim C7: for a flat sequence of length `width * height` with
`width ≥ 1`, the grid built by `chunked` has exactly
`⌈width*height / width⌉ = (width*height + (width-1)) / width` rows (which
equals `height`); every row except possibly the last has length exactly
`width`; concatenating the rows recovers the input (no element is dropped
or padded); and every row is a nonempty list of length at most `width`. -/
theorem chunked_shape (values : List ℤ) (w h : ℕ) (hw : 1 ≤ w)
    (hlen : values.length = w * h) :
    (chunked values (w : ℤ)).length = (w * h + (w - 1)) / w ∧
    (chunked values (w : ℤ)).length = h ∧
    (∀ r ∈ (chunked values (w : ℤ)).dropLast, r.length = w) ∧
    (chunked values (w : ℤ)).flatten = values ∧
    (∀ r ∈ chunked values (w : ℤ), r.length ≤ w ∧ r ≠ []) := by
  have hceil : (w * h + (w - 1)) / w = h := by
    have h1 : (w * h + (w - 1)) / w = h + (w - 1) / w := by
      rw [Nat.mul_add_div (by omega)]
    rw [h1, Nat.div_eq_of_lt (by omega)]
    omega
  have hcount : (chunked values (w : ℤ)).length = (w * h + (w - 1)) / w := by
    rw [chunked, chunkedGo_length w hw values [] [] (by simpa using hw)]
    simp only [List.length_nil, Nat.zero_add, List.length_nil]
    rw [hlen]
    congr 1
    omega
  refine ⟨hcount, by rw [hcount, hceil], ?_, ?_, ?_⟩
  · exact chunkedGo_dropLast w values [] [] (by simp)
  · rw [chunked, chunkedGo_flatten]
    simp
  · exact chunkedGo_mem w hw values [] [] (by simp) (by simpa using hw)

/-- Witness for claim C7 at `values = [5, 6, 7, 8]`, `width = 2`,
`height = 2`. -/
theorem chunked_shape_witness :
    1 ≤ 2 ∧ ([5, 6, 7, 8] : List ℤ).length = 2 * 2 ∧
    ((chunked [5, 6, 7, 8] ((2 : ℕ) : ℤ)).length = (2 * 2 + (2 - 1)) / 2 ∧
     (chunked [5, 6, 7, 8] ((2 : ℕ) : ℤ)).length = 2 ∧
     (∀ r ∈ (chunked [5, 6, 7, 8] ((2 : ℕ) : ℤ)).dropLast, r.length = 2) ∧
     (chunked [5, 6, 7, 8] ((2 : ℕ) : ℤ)).flatten = [5, 6, 7, 8] ∧
     (∀ r ∈ chunked [5, 6, 7, 8] ((2 : ℕ) : ℤ), r.length ≤ 2 ∧ r ≠ [])) :=
  ⟨by decide, by decide, chunked_shape [5, 6, 7, 8] 2 2 (by decide) (by decide)⟩

/-- Claim C9: for every value list and every width, concatenating the rows
returned by `chunked` in order yields exactly the original list — chunking
loses, duplicates and reorders nothing (proved for all integer widths,
which covers the claimed `width ≥ 1`). -/
theorem chunked_flatten_eq (values : List ℤ) (w : ℤ) :
    (chunked values w).flatten = values := by
  rw [chunked, chunkedGo_flatten]
  simp

/-- Loop invariant of the matcher scan: with `f` assigning the distance of
every global index, a strictly smaller current best than all processed
entries, and the window `[idx, idx + rest.length)` mapped by `f` to the
distances of the remaining entries, the scan returns either the incoming
best index or an index inside the window, and the returned index minimises
`f` over the incoming best and the window with ties resolved to the
smallest index. -/
theorem nearestGo_spec (c : ℤ × ℤ × ℤ) (f : ℕ → ℤ) (rest : Palette) :
    ∀ (idx bestIdx : ℕ) (bd : ℤ),
      bestIdx < idx → f bestIdx = bd →
      (∀ k (hk : k < rest.length), f (idx + k) = dist2 c (rest.get ⟨k, hk⟩).rgb) →
      (nearestGo c rest idx bestIdx (some bd) = bestIdx ∨
        (idx ≤ nearestGo c rest idx bestIdx (some bd) ∧
          nearestGo c rest idx bestIdx (some bd) < idx + rest.length)) ∧
      ∀ j, (j = bestIdx ∨ (idx ≤ j ∧ j < idx + rest.length)) →
        f (nearestGo c rest idx bestIdx (some bd)) ≤ f j ∧
          (f j = f (nearestGo c rest idx bestIdx (some bd)) →
            nearestGo c rest idx bestIdx (some bd) ≤ j) := by
  induction rest with
  | nil =>
    intro idx bestIdx bd hlt hb hrest
    refine ⟨Or.inl rfl, ?_⟩
    intro j hj
    rcases hj with rfl | ⟨h1, h2⟩
    · exact ⟨le_refl _, fun _ => le_refl _⟩
    · simp only [List.length_nil] at h2
      omega
  | cons e rest ih =>
    intro idx bestIdx bd hlt hb hrest
    have hd0 : f idx = dist2 c e.rgb := by
      have h0 := hrest 0 (by simp)
      simpa using h0
    simp only [nearestGo, ltInf]
    have hwindow : ∀ k (hk : k < rest.length),
        f (idx + 1 + k) = dist2 c (rest.get ⟨k, hk⟩).rgb := by
      intro k hk
      have hk1 : k + 1 < (e :: rest).length := by simp; omega
      have h1 := hrest (k + 1) hk1
      have h2 : (e :: rest).get ⟨k + 1, hk1⟩ = rest.get ⟨k, hk⟩ := rfl
      rw [h2] at h1
      have h3 : idx + (k + 1) = idx + 1 + k := by omega
      rwa [h3] at h1
    by_cases hcmp : dist2 c e.rgb < bd
    · rw [if_pos (by simpa using hcmp)]
      obtain ⟨IH1, IH2⟩ :=
        ih (idx + 1) idx (dist2 c e.rgb) (by omega) hd0 hwindow
      constructor
      · rcases IH1 with hres | ⟨h1, h2⟩
        · right
          constructor
          · omega
          · simp only [List.length_cons]
            omega
        · right
          constructor
          · omega
          · simp only [List.length_cons]
            omega
      · intro j hj
        rcases hj with rfl | ⟨hj1, hj2⟩
        · have h1 := (IH2 idx (Or.inl rfl)).1
          constructor
          · rw [hd0] at h1
            omega
          · intro htie
            rw [hd0] at h1
            omega
        · simp only [List.length_cons] at hj2
          rcases Nat.eq_or_lt_of_le hj1 with rfl | hj3
          · exact IH2 idx (Or.inl rfl)
          · exact IH2 j (Or.inr ⟨by omega, by omega⟩)
    · rw [if_neg (by simpa using hcmp)]
      obtain ⟨IH1, IH2⟩ := ih (idx + 1) bestIdx bd (by omega) hb hwindow
      constructor
      · rcases IH1 with hres | ⟨h1, h2⟩
        · exact Or.inl hres
        · right
          constructor
          · omega
          · simp only [List.length_cons]
            omega
      · intro j hj
        have hbest := (IH2 bestIdx (Or.inl rfl)).1
        rcases hj with rfl | ⟨hj1, hj2⟩
        · exact IH2 j (Or.inl rfl)
        · simp only [List.length_cons] at hj2
          rcases Nat.eq_or_lt_of_le hj1 with rfl | hj3
          · have hb_le := (IH2 bestIdx (Or.inl rfl)).1
            rw [hb] at hb_le
            constructor
            · rw [hd0]
              omega
            · intro htie
              rw [hd0] at htie
              have htie2 : f bestIdx
                  = f (nearestGo c rest (idx + 1) bestIdx (some bd)) := by
                rw [hb]
                omega
              have hres_le := (IH2 bestIdx (Or.inl rfl)).2 htie2
              omega
          · exact IH2 j (Or.inr ⟨by omega, by omega⟩)

/-- The matcher on a nonempty palette returns an in-range index whose
distance is minimal, with exact ties resolved to the lowest index. -/
theorem nearest_palette_index_spec (c : ℤ × ℤ × ℤ) (palette : Palette)
    (hp : palette ≠ []) :
    nearest_palette_index c palette < palette.length ∧
    (∀ j, j < palette.length →
      distOf c palette (nearest_palette_index c palette) ≤ distOf c palette j) ∧
    (∀ j, j < palette.length →
      distOf c palette j = distOf c palette (nearest_palette_index c palette) →
        nearest_palette_index c palette ≤ j) := by
  cases palette with
  | nil => exact absurd rfl hp
  | cons e rest =>
    have hstep : nearest_palette_index c (e :: rest)
        = nearestGo c rest 1 0 (some (dist2 c e.rgb)) := by
      simp [nearest_palette_index, nearestGo, ltInf]
    have hf0 : distOf c (e :: rest) 0 = dist2 c e.rgb := by
      simp [distOf]
    have hfw : ∀ k (hk : k < rest.length),
        distOf c (e :: rest) (1 + k) = dist2 c (rest.get ⟨k, hk⟩).rgb := by
      intro k hk
      have h1 : 1 + k = k + 1 := by omega
      rw [distOf, h1]
      rw [List.getD_eq_get _ _ (by simp; omega)]
      simp
    obtain ⟨H1, H2⟩ :=
      nearestGo_spec c (distOf c (e :: rest)) rest 1 0 (dist2 c e.rgb)
        (by omega) hf0 hfw
    rw [← hstep] at H1 H2
    refine ⟨?_, ?_, ?_⟩
    · rcases H1 with hres | ⟨h1, h2⟩
      · rw [hres]
        simp
      · simp only [List.length_cons]
        omega
    · intro j hj
      simp only [List.length_cons] at hj
      rcases Nat.eq_zero_or_pos j with rfl | hj0
      · exact (H2 0 (Or.inl rfl)).1
      · exact (H2 j (Or.inr ⟨by omega, by omega⟩)).1
    · intro j hj htie
      simp only [List.length_cons] at hj
      rcases Nat.eq_zero_or_pos j with rfl | hj0
      · exact (H2 0 (Or.inl rfl)).2 htie
      · exact (H2 j (Or.inr ⟨by omega, by omega⟩)).2 htie

/-- Claim C3: for every RGB triple and nonempty palette,
`nearest_palette_index` returns an index below the palette length whose
squared Euclidean distance is minimal, and any entry attaining the same
distance has an index no smaller than the returned one (ties resolve to
the lowest index). -/
theorem nearest_palette_index_min (c : ℤ × ℤ × ℤ) (palette : Palette)
    (hp : palette ≠ []) :
    nearest_palette_index c palette < palette.length ∧
    ∀ j, j < palette.length →
      distOf c palette (nearest_palette_index c palette) ≤ distOf c palette j ∧
      (distOf c palette j = distOf c palette (nearest_palette_index c palette) →
        nearest_palette_index c palette ≤ j) := by
  obtain ⟨h1, h2, h3⟩ := nearest_palette_index_spec c palette hp
  exact ⟨h1, fun j hj => ⟨h2 j hj, h3 j hj⟩⟩

/-- Witness for claim C3 at the spec's example: the two-entry palette
`[("a",(0,0,0)), ("b",(0,0,0))]` and pixel `(0,0,0)`, where the matcher
returns index 0. -/
theorem nearest_palette_index_min_witness :
    (([⟨"a", (0, 0, 0)⟩, ⟨"b", (0, 0, 0)⟩] : Palette) ≠ []) ∧
    nearest_palette_index (0, 0, 0) [⟨"a", (0, 0, 0)⟩, ⟨"b", (0, 0, 0)⟩] = 0 ∧
    (nearest_palette_index (0, 0, 0) [⟨"a", (0, 0, 0)⟩, ⟨"b", (0, 0, 0)⟩]
        < ([⟨"a", (0, 0, 0)⟩, ⟨"b", (0, 0, 0)⟩] : Palette).length ∧
      ∀ j, j < ([⟨"a", (0, 0, 0)⟩, ⟨"b", (0, 0, 0)⟩] : Palette).length →
        distOf (0, 0, 0) [⟨"a", (0, 0, 0)⟩, ⟨"b", (0, 0, 0)⟩]
            (nearest_palette_index (0, 0, 0) [⟨"a", (0, 0, 0)⟩, ⟨"b", (0, 0, 0)⟩])
          ≤ distOf (0, 0, 0) [⟨"a", (0, 0, 0)⟩, ⟨"b", (0, 0, 0)⟩] j ∧
        (distOf (0, 0, 0) [⟨"a", (0, 0, 0)⟩, ⟨"b", (0, 0, 0)⟩] j
            = distOf (0, 0, 0) [⟨"a", (0, 0, 0)⟩, ⟨"b", (0, 0, 0)⟩]
                (nearest_palette_index (0, 0, 0)
                  [⟨"a", (0, 0, 0)⟩, ⟨"b", (0, 0, 0)⟩]) →
          nearest_palette_index (0, 0, 0) [⟨"a", (0, 0, 0)⟩, ⟨"b", (0, 0, 0)⟩]
            ≤ j)) :=
  ⟨by decide, by decide,
    nearest_palette_index_min (0, 0, 0) [⟨"a", (0, 0, 0)⟩, ⟨"b", (0, 0, 0)⟩]
      (by decide)⟩

/-- Claim C8: with a nonempty palette, every value emitted into the index
grid is either the sentinel `-1` or a valid palette index in
`[0, palette length)`. -/
theorem grid_values_in_range (T : ℤ) (palette : Palette) (pixels : List Pixel)
    (w : ℤ) (hp : palette ≠ []) :
    ∀ row ∈ chunked (mapped T palette pixels) w, ∀ v ∈ row,
      v = -1 ∨ (0 ≤ v ∧ v < (palette.length : ℤ)) := by
  intro row hrow v hv
  have hvm : v ∈ mapped T palette pixels := by
    have hflat : v ∈ (chunked (mapped T palette pixels) w).flatten :=
      List.mem_flatten.mpr ⟨row, hrow, hv⟩
    rw [chunked, chunkedGo_flatten] at hflat
    simpa using hflat
  rcases List.mem_map.mp hvm with ⟨p, hpmem, hpv⟩
  by_cases hc : p.a < T
  · left
    rw [← hpv]
    simp [hc]
  · right
    rw [← hpv]
    simp only [if_neg hc]
    refine ⟨Int.natCast_nonneg _, ?_⟩
    have hlt := (nearest_palette_index_spec (flattened_rgb p) palette hp).1
    exact_mod_cast hlt

/-- Witness for claim C8: a one-entry palette, one transparent and one
opaque pixel, width 1. -/
theorem grid_values_in_range_witness :
    (([⟨"a", (0, 0, 0)⟩] : Palette) ≠ []) ∧
    (∀ row ∈ chunked (mapped 40 [⟨"a", (0, 0, 0)⟩] [⟨0, 0, 0, 0⟩, ⟨9, 9, 9, 255⟩]) 1,
      ∀ v ∈ row,
        v = -1 ∨ (0 ≤ v ∧ v < (([⟨"a", (0, 0, 0)⟩] : Palette).length : ℤ))) :=
  ⟨by decide,
    grid_values_in_range 40 [⟨"a", (0, 0, 0)⟩] [⟨0, 0, 0, 0⟩, ⟨9, 9, 9, 255⟩] 1
      (by decide)⟩

/-- Claim C6: a pixel whose alpha is strictly below the threshold maps to
exactly `-1`, and a pixel at or above the threshold maps to a value
`≥ 0`; the chunked grid concatenates back to exactly this mapped
sequence, so the same holds for the grid values. -/
theorem mapped_alpha_sentinel (T : ℤ) (palette : Palette) (pixels : List Pixel)
    (i : ℕ) (hi : i < pixels.length)
    (hm : i < (mapped T palette pixels).length) :
    ((pixels.get ⟨i, hi⟩).a < T → (mapped T palette pixels).get ⟨i, hm⟩ = -1) ∧
    (T ≤ (pixels.get ⟨i, hi⟩).a → 0 ≤ (mapped T palette pixels).get ⟨i, hm⟩) ∧
    ∀ w : ℤ, (chunked (mapped T palette pixels) w).flatten
      = mapped T palette pixels := by
  have hget : (mapped T palette pixels).get ⟨i, hm⟩
      = if (pixels.get ⟨i, hi⟩).a < T then (-1 : ℤ)
        else (nearest_palette_index (flattened_rgb (pixels.get ⟨i, hi⟩)) palette : ℤ) := by
    simp [mapped, List.get_map]
  refine ⟨?_, ?_, ?_⟩
  · intro h
    rw [hget, if_pos h]
  · intro h
    rw [hget, if_neg (not_lt.mpr h)]
    exact Int.natCast_nonneg _
  · intro w
    rw [chunked, chunkedGo_flatten]
    simp

/-- Witness for claim C6 at a two-pixel list: a pixel of alpha 10 (below
the default threshold 40) and one of alpha 200 (above it), at index 0. -/
theorem mapped_alpha_sentinel_witness :
    ((([⟨1, 2, 3, 10⟩, ⟨4, 5, 6, 200⟩] : List Pixel).get
        ⟨0, by decide⟩).a < 40 →
      (mapped 40 GAME_PALETTE_32 [⟨1, 2, 3, 10⟩, ⟨4, 5, 6, 200⟩]).get
        ⟨0, by simp [mapped]⟩ = -1) ∧
    (40 ≤ (([⟨1, 2, 3, 10⟩, ⟨4, 5, 6, 200⟩] : List Pixel).get
        ⟨0, by decide⟩).a →
      0 ≤ (mapped 40 GAME_PALETTE_32 [⟨1, 2, 3, 10⟩, ⟨4, 5, 6, 200⟩]).get
        ⟨0, by simp [mapped]⟩) ∧
    ∀ w : ℤ,
      (chunked (mapped 40 GAME_PALETTE_32 [⟨1, 2, 3, 10⟩, ⟨4, 5, 6, 200⟩]) w).flatten
        = mapped 40 GAME_PALETTE_32 [⟨1, 2, 3, 10⟩, ⟨4, 5, 6, 200⟩] :=
  mapped_alpha_sentinel 40 GAME_PALETTE_32 [⟨1, 2, 3, 10⟩, ⟨4, 5, 6, 200⟩] 0
    (by decide) (by simp [mapped])

/-- Claim C10: in tonal mode the palette statistics are computed from the
raw, unflattened RGB channels of exactly the pixels whose alpha is at or
above the threshold, substituting a single white pixel when none qualify,
while the grid matcher runs on the alpha-over-white flattened color:
(1) when no pixel passes the threshold the statistics input is the single
white pixel; (2) every pixel at or above the threshold contributes its raw
channels to the statistics input; (3) the statistics input contains
nothing else; (4) `convert` in tonal mode feeds exactly this list to the
statistics and succeeds; (5) the mapped value of a pixel at or above the
threshold is the nearest-palette index of its flattened color. -/
theorem tonal_stats_raw_channels (stats : List (ℤ × ℤ × ℤ) → ℚ × ℚ)
    (T : ℤ) (pixels : List Pixel) (palette : Palette) :
    ((solid_pixels T pixels).isEmpty = true →
      statsInput T pixels = [(255, 255, 255)]) ∧
    (∀ p ∈ pixels, T ≤ p.a → (p.r, p.g, p.b) ∈ statsInput T pixels) ∧
    (∀ q ∈ statsInput T pixels,
      q = (255, 255, 255) ∨ ∃ p ∈ pixels, T ≤ p.a ∧ q = (p.r, p.g, p.b)) ∧
    (∀ args : Args, args.mode = Mode.tonal → args.alphaThreshold = T →
      convert stats args pixels =
        Except.ok
          (chunked
            (mapped T
              (tonal_palette_from_pixels stats (statsInput T pixels)
                (max 2 args.buckets).toNat) pixels) args.width,
           tonal_palette_from_pixels stats (statsInput T pixels)
             (max 2 args.buckets).toNat,
           usedIndices
             (mapped T
               (tonal_palette_from_pixels stats (statsInput T pixels)
                 (max 2 args.buckets).toNat) pixels))) ∧
    (∀ i (hi : i < pixels.length) (hm : i < (mapped T palette pixels).length),
      T ≤ (pixels.get ⟨i, hi⟩).a →
        (mapped T palette pixels).get ⟨i, hm⟩ =
          (nearest_palette_index (flattened_rgb (pixels.get ⟨i, hi⟩))
            palette : ℤ)) := by
  refine ⟨?_, ?_, ?_, ?_, ?_⟩
  · intro h
    rw [statsInput, if_pos h]
  · intro p hp hpa
    have hmem : p ∈ pixels.filter (fun q => decide (T ≤ q.a)) :=
      List.mem_filter.mpr ⟨hp, by simpa using hpa⟩
    have hmem2 : (p.r, p.g, p.b) ∈ solid_pixels T pixels :=
      List.mem_map.mpr ⟨p, hmem, rfl⟩
    rw [statsInput]
    have hne : (solid_pixels T pixels).isEmpty = false := by
      cases hsp : solid_pixels T pixels with
      | nil =>
        rw [hsp] at hmem2
        simp at hmem2
      | cons q qs => simp
    rw [if_neg (by simp [hne])]
    exact hmem2
  · intro q hq
    rw [statsInput] at hq
    by_cases h : (solid_pixels T pixels).isEmpty
    · rw [if_pos h] at hq
      left
      simpa using hq
    · rw [if_neg h] at hq
      right
      rcases List.mem_map.mp hq with ⟨p, hpmem, hpq⟩
      rcases List.mem_filter.mp hpmem with ⟨hp1, hp2⟩
      exact ⟨p, hp1, by simpa using hp2, hpq.symm⟩
  · intro args hmode hT
    rcases args with ⟨mode, ps, bk, Ta, w, ht⟩
    simp only at hmode hT
    subst hmode
    subst hT
    rfl
  · intro i hi hm hpa
    have hget : (mapped T palette pixels).get ⟨i, hm⟩
        = if (pixels.get ⟨i, hi⟩).a < T then (-1 : ℤ)
          else (nearest_palette_index (flattened_rgb (pixels.get ⟨i, hi⟩))
            palette : ℤ) := by
      simp [mapped, List.get_map]
    rw [hget, if_neg (not_lt.mpr hpa)]

/-- Witness for claim C10: a single translucent pixel `(100,50,200,60)`
that passes the default threshold 40 contributes its raw channels
`(100,50,200)` to the statistics input. -/
theorem tonal_stats_raw_channels_witness :
    (⟨100, 50, 200, 60⟩ : Pixel) ∈ ([⟨100, 50, 200, 60⟩] : List Pixel) ∧
    (40 : ℤ) ≤ (⟨100, 50, 200, 60⟩ : Pixel).a ∧
    ((100 : ℤ), (50 : ℤ), (200 : ℤ)) ∈ statsInput 40 [⟨100, 50, 200, 60⟩] :=
  ⟨by decide, by decide,
    (tonal_stats_raw_channels (fun _ => ((0 : ℚ), (0 : ℚ))) 40
        [⟨100, 50, 200, 60⟩] []).2.1
      ⟨100, 50, 200, 60⟩ (by decide) (by decide)⟩

/-- Closed form of the brightness ladder entries for at least two
buckets. -/
theorem toneValues_getD (n : ℕ) (hn : 2 ≤ n) (i : ℕ) (hi : i < n) :
    (toneValues n).getD i 0
      = 22/100 + (72/100) * ((i : ℚ) / ((n - 1 : ℕ) : ℚ)) := by
  have hlen : i < (List.map
      (fun (i : ℕ) => 22/100 + (72/100) * ((i : ℚ) / ((max 1 (n - 1) : ℕ) : ℚ)))
      (List.range n)).length := by
    rw [List.length_map, List.length_range]
    exact hi
  rw [toneValues, List.getD_eq_get _ _ hlen]
  simp only [List.get_eq_getElem, List.getElem_map, List.getElem_range]
  rw [Nat.max_eq_right (by omega : 1 ≤ n - 1)]

/-- Claim C5: for every pixel list (through the abstracted statistics) and
every requested bucket count, the tonal palette has exactly
`max 2 buckets` entries named `tone0 .. tone(n-1)`, and its brightness
ladder is the linear interpolation `0.22 + 0.72 * i/(n-1)`: it starts at
`0.22`, ends at `0.94`, has constant consecutive difference
`0.72/(n-1)` (even spacing), and is strictly increasing. -/
theorem tonal_palette_entries (stats : List (ℤ × ℤ × ℤ) → ℚ × ℚ)
    (pix : List (ℤ × ℤ × ℤ)) (buckets : ℤ) (n : ℕ)
    (hn : (n : ℤ) = max 2 buckets) :
    2 ≤ n ∧
    (tonal_palette_from_pixels stats pix n).length = n ∧
    (∀ i (hi : i < (tonal_palette_from_pixels stats pix n).length),
      ((tonal_palette_from_pixels stats pix n).get ⟨i, hi⟩).name
        = "tone" ++ toString i) ∧
    (toneValues n).length = n ∧
    (∀ i, i < n → (toneValues n).getD i 0
      = 22/100 + (72/100) * ((i : ℚ) / ((n - 1 : ℕ) : ℚ))) ∧
    (toneValues n).getD 0 0 = 22/100 ∧
    (toneValues n).getD (n - 1) 0 = 94/100 ∧
    (∀ i, i + 1 < n → (toneValues n).getD (i + 1) 0 - (toneValues n).getD i 0
      = (72/100) / ((n - 1 : ℕ) : ℚ)) ∧
    (∀ i j, i < j → j < n →
      (toneValues n).getD i 0 < (toneValues n).getD j 0) := by
  have h2 : 2 ≤ n := by
    have hmax := le_max_left (2 : ℤ) buckets
    omega
  have hd_pos : (0 : ℚ) < ((n - 1 : ℕ) : ℚ) := by
    have : 1 ≤ n - 1 := by omega
    exact_mod_cast Nat.lt_of_lt_of_le Nat.zero_lt_one this
  have hd_ne : ((n - 1 : ℕ) : ℚ) ≠ 0 := ne_of_gt hd_pos
  refine ⟨h2, ?_, ?_, ?_, fun i hi => toneValues_getD n h2 i hi, ?_, ?_, ?_, ?_⟩
  · simp only [tonal_palette_from_pixels, tonalLadder]
    rw [List.length_map, List.enum_length, toneValues, List.length_map,
      List.length_range]
  · intro i hi
    simp only [tonal_palette_from_pixels, tonalLadder] at hi ⊢
    simp only [List.get_eq_getElem, List.getElem_map, List.getElem_enum]
  · rw [toneValues, List.length_map, List.length_range]
  · rw [toneValues_getD n h2 0 (by omega)]
    norm_num
  · rw [toneValues_getD n h2 (n - 1) (by omega)]
    rw [div_self hd_ne]
    norm_num
  · intro i hi
    rw [toneValues_getD n h2 (i + 1) (by omega), toneValues_getD n h2 i (by omega)]
    push_cast
    field_simp
    ring
  · intro i j hij hj
    rw [toneValues_getD n h2 i (by omega), toneValues_getD n h2 j (by omega)]
    have hij_q : (i : ℚ) < (j : ℚ) := by exact_mod_cast hij
    have hlt : (i : ℚ) / ((n - 1 : ℕ) : ℚ) < (j : ℚ) / ((n - 1 : ℕ) : ℚ) :=
      (div_lt_div_right hd_pos).mpr hij_q
    have hmul := mul_lt_mul_of_pos_left hlt (by norm_num : (0 : ℚ) < 72/100)
    linarith

/-- Witness for claim C5 at `buckets = 6`: six entries named
`tone0 .. tone5`. -/
theorem tonal_palette_entries_witness :
    ((6 : ℕ) : ℤ) = max 2 (6 : ℤ) ∧
    (tonal_palette_from_pixels (fun _ => ((0 : ℚ), (0 : ℚ))) [(0, 0, 0)] 6).map
        PaletteEntry.name
      = ["tone0", "tone1", "tone2", "tone3", "tone4", "tone5"] ∧
    (2 ≤ 6 ∧
     (tonal_palette_from_pixels (fun _ => ((0 : ℚ), (0 : ℚ))) [(0, 0, 0)] 6).length
        = 6 ∧
     (∀ i (hi : i < (tonal_palette_from_pixels (fun _ => ((0 : ℚ), (0 : ℚ)))
          [(0, 0, 0)] 6).length),
       ((tonal_palette_from_pixels (fun _ => ((0 : ℚ), (0 : ℚ)))
          [(0, 0, 0)] 6).get ⟨i, hi⟩).name = "tone" ++ toString i) ∧
     (toneValues 6).length = 6 ∧
     (∀ i, i < 6 → (toneValues 6).getD i 0
       = 22/100 + (72/100) * ((i : ℚ) / ((6 - 1 : ℕ) : ℚ))) ∧
     (toneValues 6).getD 0 0 = 22/100 ∧
     (toneValues 6).getD (6 - 1) 0 = 94/100 ∧
     (∀ i, i + 1 < 6 → (toneValues 6).getD (i + 1) 0 - (toneValues 6).getD i 0
       = (72/100) / ((6 - 1 : ℕ) : ℚ)) ∧
     (∀ i j, i < j → j < 6 →
       (toneValues 6).getD i 0 < (toneValues 6).getD j 0)) :=
  ⟨by decide, by decide,
    tonal_palette_entries (fun _ => ((0 : ℚ), (0 : ℚ))) [(0, 0, 0)] 6 6
      (by decide)⟩

/-- Claim C4: `palette_for_size` returns exactly the first `N` entries of
the 32-entry catalog in original order for `N ∈ {16, 32}` (the catalog has
exactly 32 entries and the 16-entry result is its length-16 prefix), and
fails with the `InvalidArgument` error for every other `N`. -/
theorem palette_for_size_spec :
    palette_for_size 16 = Except.ok (GAME_PALETTE_32.take 16) ∧
    palette_for_size 32 = Except.ok GAME_PALETTE_32 ∧
    GAME_PALETTE_32.length = 32 ∧
    (GAME_PALETTE_32.take 16).length = 16 ∧
    GAME_PALETTE_32.take 16 ++ GAME_PALETTE_32.drop 16 = GAME_PALETTE_32 ∧
    (∀ n : ℤ, n ≠ 16 → n ≠ 32 →
      palette_for_size n = Except.error "palette-size must be 16 or 32") := by
  refine ⟨rfl, rfl, by decide, by decide, List.take_append_drop 16 GAME_PALETTE_32, ?_⟩
  intro n h1 h2
  rw [palette_for_size, if_pos]
  intro hcon
  rcases hcon with h | h
  · exact h1 h
  · exact h2 h

/-- Witness for claim C4 at the spec's example `N = 17`. -/
theorem palette_for_size_spec_witness :
    (17 : ℤ) ≠ 16 ∧ (17 : ℤ) ≠ 32 ∧
    palette_for_size 17 = Except.error "palette-size must be 16 or 32" :=
  ⟨by decide, by decide,
    palette_for_size_spec.2.2.2.2.2 17 (by decide) (by decide)⟩

/-- Counterexample to claim C1 as stated: at channel value 1 and alpha 128
(which passes the default threshold 40) the code flattens to 127 —
`int()` truncation of `1*(128/255) + 255*(1 - 128/255) = 127.50196…` —
while rounding to the nearest integer as the claim states would give
128. -/
theorem flatten_rounding_cex :
    (40 : ℤ) ≤ 128 ∧
    flattened_rgb ⟨1, 1, 1, 128⟩ = (127, 127, 127) ∧
    round ((1 : ℚ) * ((128 : ℚ) / 255) + 255 * (1 - (128 : ℚ) / 255)) = 128 ∧
    (127 : ℤ) ≠ 128 := by
  refine ⟨by decide, ?_, ?_, by decide⟩
  · have h := flattenChannel_eq 1 128 (by norm_num) (by norm_num) (by norm_num)
    have h2 : flattenChannel 1 128 = 127 := by
      rw [h]
      decide
    show (flattenChannel 1 128, flattenChannel 1 128, flattenChannel 1 128)
      = (127, 127, 127)
    rw [h2]
  · have hval : ((1 : ℚ) * ((128 : ℚ) / 255) + 255 * (1 - (128 : ℚ) / 255))
        = 32513 / 255 := by norm_num
    rw [hval, round_eq]
    norm_num

/-- Claim C1 (amended): for every pixel at or above the alpha threshold
the flattened color is, per channel, the truncation (floor, since the
value is nonnegative) of `channel*(a/255) + 255*(1-a/255)` — that is,
`(channel*a + 255*(255-a)) / 255` in integer floor division — not the
rounding to nearest. -/
theorem flattenChannel_truncates (c a : ℤ) (hc : 0 ≤ c) (ha0 : 0 ≤ a)
    (ha : a ≤ 255) :
    flattenChannel c a = (c * a + 255 * (255 - a)) / 255 :=
  flattenChannel_eq c a hc ha0 ha

/-- Witness for the amended claim C1 at channel 3, alpha 100. -/
theorem flattenChannel_truncates_witness :
    (0 : ℤ) ≤ 3 ∧ (0 : ℤ) ≤ 100 ∧ (100 : ℤ) ≤ 255 ∧
    flattenChannel 3 100 = (3 * 100 + 255 * (255 - 100)) / 255 :=
  ⟨by decide, by decide, by decide,
    flattenChannel_truncates 3 100 (by decide) (by decide) (by decide)⟩

/-- Counterexample to claim C2 as stated: with `width = 0` (≤ 0) and one
pixel (so the pixel count 1 differs from `width*height = 0`) the
conversion does not fail — it returns a grid with a single short row, a
palette and a used-index list. -/
theorem convert_no_validation_cex :
    convert (fun _ => ((0 : ℚ), (0 : ℚ)))
        ⟨Mode.fixed, 32, 6, 40, 0, 5⟩ [⟨0, 0, 0, 0⟩]
      = Except.ok ([[-1]], GAME_PALETTE_32, []) ∧
    ((0 : ℤ) ≤ 0) ∧
    (([⟨0, 0, 0, 0⟩] : List Pixel).length : ℤ) ≠ 0 * 5 := by
  refine ⟨?_, by decide, by decide⟩
  rfl

/-- Claim C2 (amended): the core performs no eager validation of width,
height or pixel count — for every width, height and pixel list the
conversion succeeds; the only core error is `palette_for_size`'s
`InvalidArgument` in fixed mode with a size other than 16 or 32. -/
theorem convert_no_dimension_validation (stats : List (ℤ × ℤ × ℤ) → ℚ × ℚ)
    (args : Args) (pixels : List Pixel)
    (h : args.mode = Mode.tonal ∨ args.paletteSize = 16 ∨ args.paletteSize = 32) :
    ∃ out, convert stats args pixels = Except.ok out := by
  rcases args with ⟨mode, ps, bk, T, w, ht⟩
  cases mode
  · rcases h with h | h | h
    · exact Mode.noConfusion h
    · simp only at h
      subst h
      exact ⟨_, rfl⟩
    · simp only at h
      subst h
      exact ⟨_, rfl⟩
  · exact ⟨_, rfl⟩

/-- Witness for the amended claim C2: tonal mode with negative width and a
pixel count that does not match `width*height` still succeeds. -/
theorem convert_no_dimension_validation_witness :
    ((Mode.tonal = Mode.tonal ∨ (0 : ℤ) = 16 ∨ (0 : ℤ) = 32)) ∧
    ∃ out, convert (fun _ => ((0 : ℚ), (0 : ℚ)))
        ⟨Mode.tonal, 0, 6, 40, -3, 2⟩ [⟨1, 2, 3, 255⟩, ⟨4, 5, 6, 0⟩]
      = Except.ok out :=
  ⟨Or.inl rfl,
    convert_no_dimension_validation (fun _ => ((0 : ℚ), (0 : ℚ)))
      ⟨Mode.tonal, 0, 6, 40, -3, 2⟩ [⟨1, 2, 3, 255⟩, ⟨4, 5, 6, 0⟩] (Or.inl rfl)⟩
